import Mathlib

/-!
# TalentScout — verification of the validation/extraction core

A shallow embedding of the TalentScout repository (`chatbot.py`,
`validators.py`, `app.py`).  Python strings are modelled as `List Char`
(`Str`); Python `None` / missing values as `Option`; the remote LLM call as
an oracle function returning `Except` (exception text or assistant text);
in-place dictionary mutation as explicit state passing.  Character classes
(`\w`, `\s`, `str.lower`) are modelled at the ASCII level, which is where
all fixed keyword/phrase/regex data of this program lives.
-/

/-- Python strings are modelled as lists of characters. -/
abbrev Str := List Char

/-- The ASCII single-quote character. -/
def quoteC : Char := Char.ofNat 39

/-- The ASCII double-quote character. -/
def dquoteC : Char := Char.ofNat 34

/-- Python whitespace (`str.strip`, `str.split`, regex `\s`):
space, tab, newline, carriage return, vertical tab, form feed. -/
def isPySpace (c : Char) : Bool :=
  c = ' ' || c = '\t' || c = '\n' || c = Char.ofNat 13 ||
  c = Char.ofNat 11 || c = Char.ofNat 12

/-- Regex word character `\w`: alphanumeric or underscore. -/
def isWordChar (c : Char) : Bool := c.isAlphanum || c = '_'

/-- Negation of `isPySpace`, used by the whitespace tokenizer. -/
def notSpace (c : Char) : Bool := !isPySpace c

/-- Python `str.lower` (ASCII). -/
def pyLower (s : Str) : Str := s.map Char.toLower

/-- Left part of Python `str.strip`: drop leading whitespace. -/
def lstrip (s : Str) : Str := s.dropWhile isPySpace

/-- Right part of Python `str.strip`: drop trailing whitespace. -/
def rstrip (s : Str) : Str := (s.reverse.dropWhile isPySpace).reverse

/-- Python `str.strip`: drop leading and trailing whitespace. -/
def pyStrip (s : Str) : Str := rstrip (lstrip s)

/-- Fuel-driven body of Python `str.split()` (split on whitespace runs,
dropping empty tokens).  The fuel is only a structural-recursion device;
`pySplit` instantiates it with the length of the string. -/
def pySplitAux : Nat → Str → List Str
  | 0, _ => []
  | _ + 1, [] => []
  | fuel + 1, c :: rest =>
    if isPySpace c then pySplitAux fuel rest
    else (c :: rest.takeWhile notSpace) :: pySplitAux fuel (rest.dropWhile notSpace)

/-- Python `str.split()` with no arguments. -/
def pySplit (s : Str) : List Str := pySplitAux s.length s

/-- `re.sub(r'[^\w]', '', word)`: keep only word characters. -/
def cleanWord (w : Str) : Str := w.filter isWordChar

/-- Python `needle in hay` substring test. -/
def isSubstr (needle hay : Str) : Bool := decide (needle <:+: hay)

/-- The fixed exit keyword set of `TalentScoutChatbot.is_exit_keyword`. -/
def exit_keywords : List Str :=
  ["quit".data, "exit".data, "bye".data, "goodbye".data,
   "stop".data, "end".data, "finish".data, "done".data]

/-- The fixed exit phrase set of `TalentScoutChatbot.is_exit_keyword`
(`'i want to quit', 'i want to exit', "i'm done", "that's all",
'end interview', 'finish interview', 'i have to go', 'gotta go'`). -/
def exit_phrases : List Str :=
  ["i want to quit".data, "i want to exit".data,
   "i".data ++ [quoteC] ++ "m done".data, "that".data ++ [quoteC] ++ "s all".data,
   "end interview".data, "finish interview".data,
   "i have to go".data, "gotta go".data]

/-- `TalentScoutChatbot.is_exit_keyword` (chatbot.py lines 53–83):
empty input is rejected; otherwise the lowered-and-stripped input is
matched exactly against the keyword set, then each whitespace token is
cleaned of non-word characters and matched, then each exit phrase is
tested as a substring. -/
def is_exit_keyword (user_input : Str) : Bool :=
  if user_input = [] then false
  else
    let user_lower := pyStrip (pyLower user_input)
    if exit_keywords.contains user_lower then true
    else if (pySplit user_lower).any (fun word => exit_keywords.contains (cleanWord word)) then
      true
    else if exit_phrases.any (fun phrase => isSubstr phrase user_lower) then true
    else false

/-! ## takeWhile / dropWhile / split helper lemmas -/

theorem tw_all {p : Char → Bool} {xs : Str} (h : ∀ c ∈ xs, p c = true) (ys : Str) :
    List.takeWhile p (xs ++ ys) = xs ++ List.takeWhile p ys := by
  induction xs with
  | nil => simp
  | cons x tail ih =>
    have hx : p x = true := h x (List.mem_cons_self x tail)
    have htail : ∀ c ∈ tail, p c = true := fun c hc => h c (List.mem_cons_of_mem x hc)
    simp [List.takeWhile_cons, hx, ih htail]

theorem dw_all {p : Char → Bool} {xs : Str} (h : ∀ c ∈ xs, p c = true) (ys : Str) :
    List.dropWhile p (xs ++ ys) = List.dropWhile p ys := by
  induction xs with
  | nil => simp
  | cons x tail ih =>
    have hx : p x = true := h x (List.mem_cons_self x tail)
    have htail : ∀ c ∈ tail, p c = true := fun c hc => h c (List.mem_cons_of_mem x hc)
    simp [List.dropWhile_cons, hx, ih htail]

theorem dw_append_cons {p : Char → Bool} {d : Char} (hd : p d = false) (bs : Str) :
    ∀ a : Str, List.dropWhile p (a ++ d :: bs) = List.dropWhile p a ++ d :: bs := by
  intro a
  induction a with
  | nil => simp [List.dropWhile_cons, hd]
  | cons x xs ih =>
    by_cases hx : p x = true
    · simp only [List.cons_append, List.dropWhile_cons, hx, if_true]
      exact ih
    · simp only [Bool.not_eq_true] at hx
      simp [List.dropWhile_cons, hx]

theorem dw_head_false {p : Char → Bool} {l : Str} {d : Char} {ds : Str}
    (h : List.dropWhile p l = d :: ds) : p d = false := by
  induction l with
  | nil => simp at h
  | cons x xs ih =>
    by_cases hx : p x = true
    · simp only [List.dropWhile_cons, hx, if_true] at h
      exact ih h
    · simp only [Bool.not_eq_true] at hx
      simp only [List.dropWhile_cons, hx] at h
      simp only [Bool.false_eq_true, if_false] at h
      cases h
      exact hx

theorem dw_nil_all {p : Char → Bool} {l : Str} (h : List.dropWhile p l = []) :
    ∀ c ∈ l, p c = true := by
  induction l with
  | nil => simp
  | cons x xs ih =>
    by_cases hx : p x = true
    · simp only [List.dropWhile_cons, hx, if_true] at h
      intro c hc
      rcases List.mem_cons.mp hc with hc | hc
      · rw [hc]; exact hx
      · exact ih h c hc
    · simp only [Bool.not_eq_true] at hx
      simp [List.dropWhile_cons, hx] at h

theorem tw_dw_stop {p : Char → Bool} {l : Str} {d : Char} {ds : Str}
    (h : List.dropWhile p l = d :: ds) (z : Str) :
    List.takeWhile p (l ++ z) = List.takeWhile p l ∧
      List.dropWhile p (l ++ z) = d :: (ds ++ z) := by
  induction l with
  | nil => simp at h
  | cons x xs ih =>
    by_cases hx : p x = true
    · simp only [List.dropWhile_cons, hx, if_true] at h
      have := ih h
      simp only [List.cons_append, List.takeWhile_cons, List.dropWhile_cons, hx, if_true]
      exact ⟨by rw [this.1], this.2⟩
    · simp only [Bool.not_eq_true] at hx
      simp only [List.dropWhile_cons, hx] at h
      simp only [Bool.false_eq_true, if_false] at h
      cases h
      simp [List.takeWhile_cons, List.dropWhile_cons, hx]

theorem mem_of_mem_tw {p : Char → Bool} {c : Char} {l : Str}
    (h : c ∈ List.takeWhile p l) : c ∈ l :=
  (List.takeWhile_sublist p).mem h

theorem mem_of_mem_dw {p : Char → Bool} {c : Char} {l : Str}
    (h : c ∈ List.dropWhile p l) : c ∈ l :=
  (List.dropWhile_sublist p).mem h

theorem pySplitAux_nil (n : Nat) : pySplitAux n [] = [] := by
  cases n <;> rfl

theorem pySplitAux_congr :
    ∀ (k : Nat) (s : Str), s.length ≤ k → ∀ n m, s.length ≤ n → s.length ≤ m →
      pySplitAux n s = pySplitAux m s := by
  intro k
  induction k with
  | zero =>
    intro s hs n m _ _
    have : s = [] := List.length_eq_zero.mp (Nat.le_zero.mp hs)
    subst this
    rw [pySplitAux_nil, pySplitAux_nil]
  | succ k ih =>
    intro s hs n m hn hm
    cases s with
    | nil => rw [pySplitAux_nil, pySplitAux_nil]
    | cons c rest =>
      cases n with
      | zero => simp at hn
      | succ n' =>
        cases m with
        | zero => simp at hm
        | succ m' =>
          simp only [List.length_cons, Nat.succ_le_succ_iff] at hs hn hm
          by_cases hc : isPySpace c = true
          · simp only [pySplitAux, hc, if_true]
            exact ih rest hs n' m' hn hm
          · simp only [Bool.not_eq_true] at hc
            simp only [pySplitAux, hc, Bool.false_eq_true, if_false]
            have hlen : (rest.dropWhile notSpace).length ≤ rest.length :=
              (List.dropWhile_sublist notSpace).length_le
            rw [ih (rest.dropWhile notSpace) (Nat.le_trans hlen hs) n' m'
              (Nat.le_trans hlen hn) (Nat.le_trans hlen hm)]

theorem pySplit_cons_sp {c : Char} (h : isPySpace c = true) (s : Str) :
    pySplit (c :: s) = pySplit s := by
  show pySplitAux (s.length + 1) (c :: s) = pySplitAux s.length s
  simp [pySplitAux, h]

theorem pySplit_cons_ns {c : Char} (h : isPySpace c = false) (s : Str) :
    pySplit (c :: s) =
      (c :: s.takeWhile notSpace) :: pySplit (s.dropWhile notSpace) := by
  show pySplitAux (s.length + 1) (c :: s) = _
  simp only [pySplitAux, h, Bool.false_eq_true, if_false]
  rw [pySplitAux_congr s.length (s.dropWhile notSpace)
    (List.dropWhile_sublist notSpace).length_le s.length (s.dropWhile notSpace).length
    (List.dropWhile_sublist notSpace).length_le (Nat.le_refl _)]
  rfl

/-- Any non-empty whitespace-free block `b` occurring inside a string shows
up inside one token of `pySplit`, and the extra characters of that token
come from the surrounding context. -/
theorem tokenize_around :
    ∀ (k : Nat) (a : Str), a.length ≤ k → ∀ (b c : Str), b ≠ [] →
      (∀ ch ∈ b, isPySpace ch = false) →
      ∃ x y, (x ++ b ++ y) ∈ pySplit (a ++ b ++ c) ∧
        (∀ ch ∈ x, ch ∈ a) ∧ (∀ ch ∈ y, ch ∈ c) := by
  intro k
  induction k with
  | zero =>
    intro a ha b c hb hbs
    have : a = [] := List.length_eq_zero.mp (Nat.le_zero.mp ha)
    subst this
    obtain ⟨b0, bt, rfl⟩ := List.exists_cons_of_ne_nil hb
    have hb0 : isPySpace b0 = false := hbs b0 (by simp)
    have hbt : ∀ ch ∈ bt, notSpace ch = true := by
      intro ch hch
      simp [notSpace, hbs ch (by simp [hch])]
    refine ⟨[], List.takeWhile notSpace c, ?_, by simp, ?_⟩
    · simp only [List.nil_append, List.cons_append, List.append_assoc]
      rw [pySplit_cons_ns hb0]
      rw [tw_all hbt c]
      simp
    · intro ch hch
      exact mem_of_mem_tw hch
  | succ k ih =>
    intro a ha b c hb hbs
    cases a with
    | nil => exact ih [] (by simp) b c hb hbs
    | cons a0 at' =>
      simp only [List.length_cons, Nat.succ_le_succ_iff] at ha
      by_cases ha0 : isPySpace a0 = true
      · obtain ⟨x, y, hmem, hx, hy⟩ := ih at' ha b c hb hbs
        refine ⟨x, y, ?_, ?_, hy⟩
        · simpa only [List.cons_append, List.append_assoc, pySplit_cons_sp ha0]
            using hmem
        · intro ch hch
          exact List.mem_cons_of_mem a0 (hx ch hch)
      · simp only [Bool.not_eq_true] at ha0
        cases hdw : List.dropWhile notSpace at' with
        | nil =>
          have hat : ∀ ch ∈ at', notSpace ch = true := dw_nil_all hdw
          obtain ⟨b0, bt, rfl⟩ := List.exists_cons_of_ne_nil hb
          have hbt : ∀ ch ∈ b0 :: bt, notSpace ch = true := by
            intro ch hch
            simp [notSpace, hbs ch hch]
          refine ⟨a0 :: at', List.takeWhile notSpace c, ?_, by simp, ?_⟩
          · simp only [List.cons_append, List.append_assoc]
            rw [pySplit_cons_ns ha0]
            rw [tw_all hat]
            have h2 := tw_all hbt c
            simp only [List.cons_append] at h2
            rw [h2]
            simp [List.cons_append, List.append_assoc]
          · intro ch hch
            exact mem_of_mem_tw hch
        | cons d ds =>
          have hdns : notSpace d = false := dw_head_false hdw
          have hdsp : isPySpace d = true := by
            simpa [notSpace] using hdns
          have hstop := tw_dw_stop hdw (b ++ c)
          have hlen : ds.length ≤ k := by
            have h1 : (d :: ds).length ≤ at'.length :=
              hdw ▸ (List.dropWhile_sublist notSpace).length_le
            simp only [List.length_cons] at h1
            omega
          obtain ⟨x, y, hmem, hx, hy⟩ := ih ds hlen b c hb hbs
          refine ⟨x, y, ?_, ?_, hy⟩
          · simp only [List.cons_append, List.append_assoc]
            rw [pySplit_cons_ns ha0]
            rw [hstop.2, pySplit_cons_sp hdsp]
            refine List.mem_cons_of_mem _ ?_
            simpa [List.append_assoc] using hmem
          · intro ch hch
            have h1 : ch ∈ ds := hx ch hch
            have h2 : ch ∈ List.dropWhile notSpace at' := by
              rw [hdw]; exact List.mem_cons_of_mem d h1
            exact List.mem_cons_of_mem a0 (mem_of_mem_dw h2)

/-- `str.strip` around a block whose first and last characters are not
whitespace only strips inside the surrounding context. -/
theorem strip_decomp {b : Str} {b0 b1 : Char} {bt r1 : Str}
    (hbc : b = b0 :: bt) (hrev : b.reverse = b1 :: r1)
    (h0 : isPySpace b0 = false) (h1 : isPySpace b1 = false) (a c : Str) :
    pyStrip (a ++ b ++ c) = lstrip a ++ b ++ rstrip c := by
  have hl : lstrip (a ++ b ++ c) = lstrip a ++ b ++ c := by
    show List.dropWhile isPySpace (a ++ b ++ c) = _
    rw [hbc]
    simp only [List.append_assoc, List.cons_append]
    rw [dw_append_cons h0]
    simp [lstrip, List.append_assoc]
  show rstrip (lstrip (a ++ b ++ c)) = _
  rw [hl]
  show (List.dropWhile isPySpace (lstrip a ++ b ++ c).reverse).reverse = _
  rw [List.reverse_append, List.reverse_append, hrev]
  simp only [List.append_assoc, List.cons_append]
  rw [dw_append_cons h1]
  simp only [List.reverse_append, List.reverse_cons, List.reverse_reverse]
  have : (b1 :: r1).reverse = b := by
    rw [← hrev, List.reverse_reverse]
  simp only [List.reverse_cons] at this
  rw [← this]
  simp [rstrip, List.append_assoc]

/-! ## Character-class facts -/

theorem toLower_eq_of_not_word {c : Char} (h : isWordChar c = false) :
    c.toLower = c := by
  simp only [isWordChar, Bool.or_eq_false_iff] at h
  have h1 : c.isAlphanum = false := h.1
  simp only [Char.isAlphanum, Char.isAlpha, Char.isUpper, Bool.or_eq_false_iff,
    Bool.and_eq_false_iff] at h1
  unfold Char.toLower
  rw [if_neg]
  intro hcon
  rcases h1.1.1 with hu | hu
  · exact absurd (by exact_mod_cast hcon.1 : (65 : UInt32) ≤ c.val) (by simpa using hu)
  · exact absurd (by exact_mod_cast hcon.2 : c.val ≤ (90 : UInt32)) (by simpa using hu)

theorem pyLower_eq_of_not_word {l : Str} (h : ∀ c ∈ l, isWordChar c = false) :
    pyLower l = l := by
  induction l with
  | nil => rfl
  | cons c cs ih =>
    show c.toLower :: pyLower cs = c :: cs
    rw [toLower_eq_of_not_word (h c (by simp)), ih (fun d hd => h d (by simp [hd]))]

theorem kw_facts : ∀ kw ∈ exit_keywords, kw ≠ [] ∧
    ∀ c ∈ kw, isPySpace c = false ∧ isWordChar c = true := by decide

theorem phrase_facts : ∀ p ∈ exit_phrases, p ≠ [] ∧
    isPySpace (p.headD 'x') = false ∧ isPySpace (p.reverse.headD 'x') = false := by
  decide

theorem mem_lstrip {c : Char} {l : Str} (h : c ∈ lstrip l) : c ∈ l :=
  mem_of_mem_dw h

theorem mem_rstrip {c : Char} {l : Str} (h : c ∈ rstrip l) : c ∈ l := by
  have := mem_of_mem_dw (List.mem_reverse.mp h)
  exact List.mem_reverse.mp this

theorem cleanWord_around {x b y : Str} (hx : ∀ c ∈ x, isWordChar c = false)
    (hy : ∀ c ∈ y, isWordChar c = false) (hb : ∀ c ∈ b, isWordChar c = true) :
    cleanWord (x ++ b ++ y) = b := by
  unfold cleanWord
  rw [List.filter_append, List.filter_append]
  rw [List.filter_eq_self.mpr hb]
  have hxn : x.filter isWordChar = [] := by
    simp only [List.filter_eq_nil_iff]
    intro c hc
    simp [hx c hc]
  have hyn : y.filter isWordChar = [] := by
    simp only [List.filter_eq_nil_iff]
    intro c hc
    simp [hy c hc]
  rw [hxn, hyn]
  simp

theorem infix_pyStrip {p l : Str} (hne : p ≠ [])
    (hh : isPySpace (p.headD 'x') = false)
    (hl : isPySpace (p.reverse.headD 'x') = false)
    (hinf : p <:+: l) : p <:+: pyStrip l := by
  obtain ⟨s, t, hst⟩ := hinf
  obtain ⟨p0, pt, rfl⟩ := List.exists_cons_of_ne_nil hne
  have hrevne : (p0 :: pt).reverse ≠ [] := by simp
  obtain ⟨p1, r1, hrev⟩ := List.exists_cons_of_ne_nil hrevne
  have h0 : isPySpace p0 = false := hh
  have h1 : isPySpace p1 = false := by
    rw [hrev] at hl
    exact hl
  have hdec := strip_decomp rfl hrev h0 h1 s t
  refine ⟨lstrip s, rstrip t, ?_⟩
  rw [← hst]
  exact hdec.symm

/-! ## Exit-detector branch helpers -/

theorem is_exit_true_of_token {s : Str} (hs : s ≠ [])
    (h : (pySplit (pyStrip (pyLower s))).any
        (fun word => exit_keywords.contains (cleanWord word)) = true) :
    is_exit_keyword s = true := by
  obtain ⟨w, hw, hcw⟩ := List.any_eq_true.mp h
  unfold is_exit_keyword
  rw [if_neg hs]
  simp
  exact Or.inr (Or.inl ⟨w, hw, by simpa [List.elem_iff] using hcw⟩)

theorem is_exit_true_of_phrase {s : Str} (hs : s ≠ [])
    (h : (exit_phrases.any fun phrase => isSubstr phrase (pyStrip (pyLower s))) = true) :
    is_exit_keyword s = true := by
  obtain ⟨p, hp, hsub⟩ := List.any_eq_true.mp h
  unfold is_exit_keyword
  rw [if_neg hs]
  simp
  exact Or.inr (Or.inr ⟨p, hp, hsub⟩)

/-- C1: the exit-intent detector returns `false` on empty input and on any
text on which none of its checks fires (no exact normalized keyword match,
no cleaned whitespace-token keyword match, no exit phrase substring); it
returns `true` for every exit keyword in any letter case surrounded by
arbitrary whitespace or punctuation (non-word characters), and for any text
whose lower-cased form contains an exit phrase as a substring. -/
theorem C1_is_exit_characterization :
    (is_exit_keyword [] = false)
    ∧ (∀ s : Str,
        exit_keywords.contains (pyStrip (pyLower s)) = false →
        (pySplit (pyStrip (pyLower s))).any
          (fun word => exit_keywords.contains (cleanWord word)) = false →
        (exit_phrases.any fun phrase => isSubstr phrase (pyStrip (pyLower s))) = false →
        is_exit_keyword s = false)
    ∧ (∀ kw ∈ exit_keywords, ∀ pre v post : Str,
        (∀ c ∈ pre, isWordChar c = false) → (∀ c ∈ post, isWordChar c = false) →
        pyLower v = kw →
        is_exit_keyword (pre ++ v ++ post) = true)
    ∧ (∀ s : Str, ∀ p ∈ exit_phrases, p <:+: pyLower s → is_exit_keyword s = true) := by
  refine ⟨rfl, ?_, ?_, ?_⟩
  · intro s h1 h2 h3
    by_cases hs : s = []
    · subst hs; rfl
    · unfold is_exit_keyword
      rw [if_neg hs]
      simp only [List.any_eq_false] at h2 h3
      simp
      refine ⟨by simpa [List.elem_iff] using h1, ?_, ?_⟩
      · intro w hw
        have := h2 w hw
        simpa [List.elem_iff] using this
      · intro p hp
        have := h3 p hp
        simpa using this
  · intro kw hkw pre v post hpre hpost hv
    obtain ⟨hkne, hkprops⟩ := kw_facts kw hkw
    have hkns : ∀ c ∈ kw, isPySpace c = false := fun c hc => (hkprops c hc).1
    have hkword : ∀ c ∈ kw, isWordChar c = true := fun c hc => (hkprops c hc).2
    have hvne : v ≠ [] := by
      intro hcon
      subst hcon
      exact hkne (by simpa [pyLower] using hv.symm)
    have hsne : pre ++ v ++ post ≠ [] := by
      simp [hvne]
    have hlow : pyLower (pre ++ v ++ post) = pre ++ kw ++ post := by
      unfold pyLower
      rw [List.map_append, List.map_append]
      rw [show List.map Char.toLower v = kw from hv]
      rw [show List.map Char.toLower pre = pre from pyLower_eq_of_not_word hpre]
      rw [show List.map Char.toLower post = post from pyLower_eq_of_not_word hpost]
    obtain ⟨b0, bt, hbc⟩ := List.exists_cons_of_ne_nil hkne
    have hrevne : kw.reverse ≠ [] := by simp [hkne]
    obtain ⟨b1, r1, hrev⟩ := List.exists_cons_of_ne_nil hrevne
    have h0 : isPySpace b0 = false := hkns b0 (by rw [hbc]; simp)
    have h1 : isPySpace b1 = false :=
      hkns b1 (List.mem_reverse.mp (by rw [hrev]; simp))
    have hstrip : pyStrip (pre ++ kw ++ post) = lstrip pre ++ kw ++ rstrip post :=
      strip_decomp hbc hrev h0 h1 pre post
    obtain ⟨x, y, hmem, hx, hy⟩ := tokenize_around (lstrip pre).length (lstrip pre)
      (Nat.le_refl _) kw (rstrip post) hkne hkns
    apply is_exit_true_of_token hsne
    rw [hlow, hstrip]
    apply List.any_eq_true.mpr
    refine ⟨x ++ kw ++ y, hmem, ?_⟩
    have hxw : ∀ c ∈ x, isWordChar c = false := fun c hc => hpre c (mem_lstrip (hx c hc))
    have hyw : ∀ c ∈ y, isWordChar c = false := fun c hc => hpost c (mem_rstrip (hy c hc))
    rw [cleanWord_around hxw hyw hkword]
    exact List.elem_eq_true_of_mem hkw
  · intro s p hp hinf
    obtain ⟨hpne, hph, hpl⟩ := phrase_facts p hp
    have hsne : s ≠ [] := by
      intro hcon
      subst hcon
      exact hpne (List.infix_nil.mp hinf)
    apply is_exit_true_of_phrase hsne
    apply List.any_eq_true.mpr
    refine ⟨p, hp, ?_⟩
    unfold isSubstr
    exact decide_eq_true (infix_pyStrip hpne hph hpl hinf)

/-- C1 witness: the theorem applied at the keyword `bye`, case variant
`Bye`, surrounded by a space, a period and spaces (the spec's " Bye. "
example), and at the detector's guaranteed-false branch hypotheses. -/
theorem C1_witness :
    ("bye".data ∈ exit_keywords) ∧ pyLower ("Bye".data) = "bye".data ∧
      is_exit_keyword (" Bye. ".data) = true := by
  refine ⟨by decide, by decide, ?_⟩
  have h := C1_is_exit_characterization.2.2.1 ("bye".data) (by decide)
    (" ".data) ("Bye".data) (". ".data) (by decide) (by decide) (by decide)
  have e : (" ".data ++ "Bye".data ++ ". ".data) = " Bye. ".data := by decide
  rw [← e]
  exact h

/-! ## validators.py — field extractors

`EmailValidator.email_pattern` is
`\b[A-Za-z0-9._%+-]+@[A-Za-z0-9.-]+\.[A-Z|a-z]{2,}\b`;
`PhoneValidator.phone_pattern` is `[\+]?[1-9]?[0-9]{7,14}`;
the experience pattern is `(\d+(?:\.\d+)?)\s*(?:years?|yrs?)`.
Each engine below implements Python `re.search` (leftmost match, greedy
quantifiers with backtracking) specialized to its pattern. -/

/-- Character class `[A-Za-z0-9._%+-]` (email local part). -/
def isEmailLocalChar (c : Char) : Bool :=
  c.isAlphanum || c = '.' || c = '_' || c = '%' || c = '+' || c = '-'

/-- Character class `[A-Za-z0-9.-]` (email domain part). -/
def isEmailDomChar (c : Char) : Bool := c.isAlphanum || c = '.' || c = '-'

/-- Character class `[A-Z|a-z]` (email TLD part; the `|` is a literal
member of the class as written in the source pattern). -/
def isEmailTldChar (c : Char) : Bool :=
  (decide ('A' ≤ c) && decide (c ≤ 'Z')) || c = '|' ||
  (decide ('a' ≤ c) && decide (c ≤ 'z'))

/-- Word-status of an optional character (for `\b`); absent = non-word. -/
def wordOpt : Option Char → Bool
  | some c => isWordChar c
  | none => false

/-- Regex word boundary `\b` between two optional characters. -/
def boundary (a b : Option Char) : Bool := wordOpt a != wordOpt b

/-- Does `\b` hold after consuming `n` characters of `s`? -/
def tldBoundaryOK (s : Str) (n : Nat) : Bool :=
  boundary (s.take n).getLast? (s.drop n).head?

/-- `[A-Z|a-z]{2,}\b`: given the maximal TLD munch length as starting
candidate, find the largest length `≥ 2` whose trailing `\b` holds
(greedy with backtracking). -/
def tryTldLen (s : Str) : Nat → Option Nat
  | 0 => none
  | 1 => none
  | n + 2 => if tldBoundaryOK s (n + 2) then some (n + 2) else tryTldLen s (n + 1)

/-- Match `[A-Z|a-z]{2,}\b` at the head of `s`, returning consumed length. -/
def tryTld (s : Str) : Option Nat :=
  tryTldLen s (s.takeWhile isEmailTldChar).length

/-- `[A-Za-z0-9.-]+\.[A-Z|a-z]{2,}\b` with the domain munch length as
starting candidate, shrinking greedily on failure. -/
def tryDomLen (s : Str) : Nat → Option Nat
  | 0 => none
  | j + 1 =>
    match s.drop (j + 1) with
    | '.' :: r =>
      match tryTld r with
      | some t => some ((j + 1) + 1 + t)
      | none => tryDomLen s j
    | _ => tryDomLen s j

/-- Match `[A-Za-z0-9.-]+\.[A-Z|a-z]{2,}\b` at the head of `s`. -/
def tryDom (s : Str) : Option Nat :=
  tryDomLen s (s.takeWhile isEmailDomChar).length

/-- Attempt the email pattern at the current position (`prev` is the
character before the position, for the leading `\b`). -/
def emailMatchAt (prev : Option Char) (s : Str) : Option Str :=
  if boundary prev s.head? = true then
    let loc := s.takeWhile isEmailLocalChar
    if loc = [] then none
    else
      match s.drop loc.length with
      | '@' :: r =>
        match tryDom r with
        | some n => some (loc ++ '@' :: r.take n)
        | none => none
      | _ => none
  else none

/-- `re.search` of the email pattern: leftmost position wins. -/
def emailSearchAux (prev : Option Char) : Str → Option Str
  | [] => none
  | c :: rest =>
    match emailMatchAt prev (c :: rest) with
    | some m => some m
    | none => emailSearchAux (some c) rest

/-- `EmailValidator.extract_email` (validators.py lines 21–29). -/
def extract_email (text : Str) : Option Str :=
  if text = [] then none else emailSearchAux none text

/-- Nonzero decimal digit `[1-9]`. -/
def isNonzeroDigit (c : Char) : Bool := decide ('1' ≤ c) && decide (c ≤ '9')

/-- Match `[1-9]?[0-9]{7,14}` at the head of `s` (greedy, with the
backtrack of the optional `[1-9]` when the mandatory run falls short),
returning the matched characters. -/
def tryQuant (s : Str) : Option Str :=
  match s with
  | [] => none
  | c :: rest =>
    if isNonzeroDigit c then
      let r := rest.takeWhile Char.isDigit
      if 7 ≤ r.length then some (c :: r.take 14)
      else if 7 ≤ r.length + 1 then some (c :: r)
      else none
    else if c.isDigit then
      let r := rest.takeWhile Char.isDigit
      if 7 ≤ r.length + 1 then some (c :: r.take 13) else none
    else none

/-- Attempt `[\+]?[1-9]?[0-9]{7,14}` at the current position: the optional
`+` is consumed first; if the remainder fails, the backtrack retries from
the `+` itself (which, not being a digit, fails). -/
def phoneMatchAt (s : Str) : Option Str :=
  match s with
  | [] => tryQuant []
  | c :: rest =>
    if c = '+' then
      match tryQuant rest with
      | some m => some ('+' :: m)
      | none => tryQuant (c :: rest)
    else tryQuant (c :: rest)

/-- `re.search` of the phone pattern: leftmost position wins. -/
def phoneSearch : Str → Option Str
  | [] => none
  | c :: rest =>
    match phoneMatchAt (c :: rest) with
    | some m => some m
    | none => phoneSearch rest

/-- `PhoneValidator.extract_phone` (validators.py lines 56–67): remove all
`-` and space characters, then search the phone pattern. -/
def extract_phone (text : Str) : Option Str :=
  if text = [] then none
  else phoneSearch (text.filter (fun c => !(c = '-' || c = ' ')))

/-- Tail alternation `(?:years?|yrs?)`: succeeds iff the text starts with
`year` (first alternative, optional `s` irrelevant to success) or `yr`. -/
def matchYears (s : Str) : Bool :=
  List.isPrefixOf "year".data s || List.isPrefixOf "yr".data s

/-- Attempt `(\d+(?:\.\d+)?)\s*(?:years?|yrs?)` at the current position,
returning group 1.  Greedy maximal munch is exact here: shrinking `\d+` or
the fractional digits always leaves a digit in front of the alternation,
which then fails, and dropping the fractional part leaves a `.` there. -/
def expMatchAt (s : Str) : Option Str :=
  let ds := s.takeWhile Char.isDigit
  if ds = [] then none
  else
    let rest := s.drop ds.length
    let gr :=
      match rest with
      | '.' :: r2 =>
        let fs := r2.takeWhile Char.isDigit
        if fs = [] then (ds, rest)
        else (ds ++ '.' :: fs, r2.drop fs.length)
      | _ => (ds, rest)
    if matchYears (gr.2.dropWhile isPySpace) then some gr.1 else none

/-- `re.search` of the experience pattern, returning group 1. -/
def expSearch : Str → Option Str
  | [] => none
  | c :: rest =>
    match expMatchAt (c :: rest) with
    | some g => some g
    | none => expSearch rest

/-- Numeric value of a run of decimal digit characters. -/
def natOfDigits (ds : Str) : Nat := ds.foldl (fun n c => 10 * n + (c.toNat - 48)) 0

/-- Modelled: Python `float(g)` for a matched group `g` (digits with an
optional fractional part), as the exact decimal value
`(ip * 10^k + fp) / 10^k` in `ℚ`.  The IEEE-754
rounding of `float` is not modelled; for groups within double precision's
shortest-roundtrip regime the comparison with `1` below agrees with
Python. -/
def decValue (g : Str) : ℚ :=
  let ip := g.takeWhile Char.isDigit
  let fp := (g.dropWhile Char.isDigit).drop 1
  mkRat (natOfDigits ip * 10 ^ fp.length + natOfDigits fp) (10 ^ fp.length)

/-- Modelled: Python `str(float(g))` for a matched group `g`: the integer
part re-rendered without leading zeros, a dot, and the fractional digits
with trailing zeros removed (`0` when none remain).  This is Python's
shortest-roundtrip float repr for groups within the double-precision
regime (no scientific notation, ≤ 17 significant digits). -/
def pyFloatStr (g : Str) : Str :=
  let ip := g.takeWhile Char.isDigit
  let fp := (g.dropWhile Char.isDigit).drop 1
  let fpTrim := (fp.reverse.dropWhile (fun c => c = '0')).reverse
  Nat.toDigits 10 (natOfDigits ip) ++ '.' :: (if fpTrim = [] then ['0'] else fpTrim)

/-- `ExperienceValidator.extract_experience` (validators.py lines 89–101):
search the pattern in the lower-cased text; on a match parse group 1 as a
float and return `"<float> years"`, or `"1 year"` when the value equals 1. -/
def extract_experience (text : Str) : Option Str :=
  if text = [] then none
  else
    match expSearch (pyLower text) with
    | some g =>
      if decValue g = 1 then some ("1 year".data)
      else some (pyFloatStr g ++ " years".data)
    | none => none

/-- The candidate record written by `TalentScoutChatbot.extract_candidate_info`
(chatbot.py): the three keys that method can ever set, each either absent
(`none`) or present with a string value. -/
structure CandidateInfo where
  email : Option Str
  phone : Option Str
  experience : Option Str
deriving DecidableEq

/-- `TalentScoutChatbot.extract_candidate_info` (chatbot.py lines 85–105):
each of email/phone/experience is extracted from the raw utterance and
written only when its key is absent.  The experience branch is the
chatbot's own inlined regex: it stores `group(1) + ' years'` directly
(it does not call `ExperienceValidator.extract_experience`). -/
def extract_candidate_info (info : CandidateInfo) (user_input : Str) : CandidateInfo :=
  let user_lower := pyLower user_input
  let info1 :=
    if info.email = none then
      match extract_email user_input with
      | some e => { info with email := some e }
      | none => info
    else info
  let info2 :=
    if info1.phone = none then
      match extract_phone user_input with
      | some p => { info1 with phone := some p }
      | none => info1
    else info1
  match expSearch user_lower with
  | some g =>
    if info2.experience = none then { info2 with experience := some (g ++ " years".data) }
    else info2
  | none => info2

/-! ## Field lemmas for the record merge -/

theorem eci_email (info : CandidateInfo) (input : Str) :
    (extract_candidate_info info input).email =
      if info.email = none then extract_email input else info.email := by
  unfold extract_candidate_info
  by_cases h1 : info.email = none <;>
    cases h2 : extract_email input <;>
    cases h3 : extract_phone input <;>
    cases h4 : expSearch (pyLower input) <;>
    simp [h1, h2, h3, h4] <;>
    (try split) <;> (try simp_all) <;> (try split) <;> (try simp_all)

theorem eci_phone (info : CandidateInfo) (input : Str) :
    (extract_candidate_info info input).phone =
      if info.phone = none then extract_phone input else info.phone := by
  unfold extract_candidate_info
  by_cases h1 : info.email = none <;>
    by_cases hp : info.phone = none <;>
    cases h2 : extract_email input <;>
    cases h3 : extract_phone input <;>
    cases h4 : expSearch (pyLower input) <;>
    simp [h1, hp, h2, h3, h4] <;>
    (try split) <;> (try simp_all) <;> (try split) <;> (try simp_all)

theorem eci_exp (info : CandidateInfo) (input : Str) :
    (extract_candidate_info info input).experience =
      if info.experience = none then
        (match expSearch (pyLower input) with
          | some g => some (g ++ " years".data)
          | none => none)
      else info.experience := by
  unfold extract_candidate_info
  by_cases h1 : info.email = none <;>
    by_cases hp : info.phone = none <;>
    by_cases he : info.experience = none <;>
    cases h2 : extract_email input <;>
    cases h3 : extract_phone input <;>
    cases h4 : expSearch (pyLower input) <;>
    simp [h1, hp, he, h2, h3, h4] <;>
    (try split) <;> (try simp_all) <;> (try split) <;> (try simp_all)

/-- C2: the record merge is first-write-wins and monotone: a key already
present is never removed or changed, and each of email/phone/experience is
set only when absent (and then only from its extractor's hit). -/
theorem C2_merge_monotone (info : CandidateInfo) (input : Str) :
    (info.email ≠ none → (extract_candidate_info info input).email = info.email)
    ∧ (info.phone ≠ none → (extract_candidate_info info input).phone = info.phone)
    ∧ (info.experience ≠ none →
        (extract_candidate_info info input).experience = info.experience)
    ∧ ((extract_candidate_info info input).email = info.email ∨
        (info.email = none ∧
          (extract_candidate_info info input).email = extract_email input))
    ∧ ((extract_candidate_info info input).phone = info.phone ∨
        (info.phone = none ∧
          (extract_candidate_info info input).phone = extract_phone input))
    ∧ ((extract_candidate_info info input).experience = info.experience ∨
        (info.experience = none ∧ ∃ g, expSearch (pyLower input) = some g ∧
          (extract_candidate_info info input).experience =
            some (g ++ " years".data))) := by
  rw [eci_email, eci_phone, eci_exp]
  by_cases h1 : info.email = none <;> by_cases h2 : info.phone = none <;>
    by_cases h3 : info.experience = none <;>
    cases h4 : expSearch (pyLower input) <;>
    simp [h1, h2, h3, h4]

/-- C2 witness: a record whose `email` is already set keeps it across a
merge of an utterance containing a different email address. -/
theorem C2_witness :
    (CandidateInfo.mk (some ("a@b.co".data)) none none).email ≠ none ∧
      (extract_candidate_info
        (CandidateInfo.mk (some ("a@b.co".data)) none none)
        ("my email is x@y.org".data)).email = some ("a@b.co".data) :=
  ⟨by decide,
    (C2_merge_monotone (CandidateInfo.mk (some ("a@b.co".data)) none none)
      ("my email is x@y.org".data)).1 (by decide)⟩

/-- C3 counterexample: merging the spec's own one-year utterance stores the
un-normalized `"1 years"`, not the singular `"1 year"` the claim requires
(the chatbot's inline extraction, not `ExperienceValidator`, runs here),
even though the parsed numeric value of the matched group equals 1. -/
theorem C3_counterexample :
    (extract_candidate_info (CandidateInfo.mk none none none)
        ("I have 1 year of experience".data)).experience = some ("1 years".data)
    ∧ decValue ("1".data) = 1
    ∧ some ("1 years".data) ≠ some ("1 year".data) := by
  refine ⟨by decide, by decide, by decide⟩

/-- C3 amended: every value the merge step stores under the experience key
is the matched digit group followed by the literal `" years"` (always
plural, digits exactly as matched, no float normalization); in particular
a one-year utterance stores `"1 years"`. -/
theorem C3_amended_experience_form (info : CandidateInfo) (input : Str) :
    (extract_candidate_info info input).experience = info.experience ∨
      (info.experience = none ∧ ∃ g, expSearch (pyLower input) = some g ∧
        (extract_candidate_info info input).experience =
          some (g ++ " years".data)) := by
  rw [eci_exp]
  by_cases h3 : info.experience = none <;>
    cases h4 : expSearch (pyLower input) <;> simp [h3, h4]

/-- C4: `extract_experience` returns nothing when the lower-cased text has
no match of the experience pattern; on a match it returns `"1 year"` when
the parsed value equals 1 and otherwise the float stringification of the
matched group followed by `" years"`; including the spec's three examples
(`"I have 1 year of experience"` → `"1 year"`, `"I have 5 years"` →
`"5.0 years"`, `"3.5 yrs"` → `"3.5 years"`). -/
theorem C4_extract_experience :
    (∀ t : Str, expSearch (pyLower t) = none → extract_experience t = none)
    ∧ (∀ (t g : Str), expSearch (pyLower t) = some g →
        extract_experience t =
          if decValue g = 1 then some ("1 year".data)
          else some (pyFloatStr g ++ " years".data))
    ∧ extract_experience ("I have 1 year of experience".data) = some ("1 year".data)
    ∧ extract_experience ("I have 5 years".data) = some ("5.0 years".data)
    ∧ extract_experience ("3.5 yrs".data) = some ("3.5 years".data) := by
  refine ⟨?_, ?_, by decide, by decide, by decide⟩
  · intro t h
    unfold extract_experience
    by_cases ht : t = []
    · simp [ht]
    · rw [if_neg ht, h]
  · intro t g h
    have ht : t ≠ [] := by
      intro hcon
      subst hcon
      simp [pyLower, expSearch] at h
    unfold extract_experience
    rw [if_neg ht, h]

/-- C4 witness: the characterization applied at `"5 years"`, whose matched
group is `"5"`, value 5 ≠ 1, rendered `"5.0 years"`. -/
theorem C4_witness :
    expSearch (pyLower ("5 years".data)) = some ("5".data) ∧
      extract_experience ("5 years".data) =
        (if decValue ("5".data) = 1 then some ("1 year".data)
         else some (pyFloatStr ("5".data) ++ " years".data)) :=
  ⟨by decide, C4_extract_experience.2.1 ("5 years".data) ("5".data) (by decide)⟩

/-! ## Shape of phone matches -/

theorem isDigit_of_nonzero {c : Char} (h : isNonzeroDigit c = true) :
    c.isDigit = true := by
  simp only [isNonzeroDigit, Bool.and_eq_true, decide_eq_true_eq] at h
  simp only [Char.isDigit, Bool.and_eq_true, decide_eq_true_eq]
  have h1 : ('0' : Char) ≤ '1' := by decide
  have h2 : ('9' : Char) ≤ '9' := by decide
  exact ⟨le_trans h1 h.1, le_trans h.2 h2⟩

theorem tryQuant_shape {s m : Str} (h : tryQuant s = some m) :
    (∀ c ∈ m, c.isDigit = true) ∧ 7 ≤ m.length ∧ m.length ≤ 15 := by
  cases s with
  | nil => simp [tryQuant] at h
  | cons c rest =>
    simp only [tryQuant] at h
    have hr : ∀ d ∈ rest.takeWhile Char.isDigit, d.isDigit = true :=
      fun d hd => List.mem_takeWhile_imp hd
    by_cases h1 : isNonzeroDigit c = true
    · rw [if_pos h1] at h
      by_cases h2 : 7 ≤ (rest.takeWhile Char.isDigit).length
      · rw [if_pos h2] at h
        cases h
        refine ⟨?_, ?_, ?_⟩
        · intro d hd
          rcases List.mem_cons.mp hd with rfl | hd
          · exact isDigit_of_nonzero h1
          · exact hr d (List.mem_of_mem_take hd)
        · simp only [List.length_cons, List.length_take]
          omega
        · simp only [List.length_cons, List.length_take]
          omega
      · rw [if_neg h2] at h
        by_cases h3 : 7 ≤ (rest.takeWhile Char.isDigit).length + 1
        · rw [if_pos h3] at h
          cases h
          refine ⟨?_, ?_, ?_⟩
          · intro d hd
            rcases List.mem_cons.mp hd with rfl | hd
            · exact isDigit_of_nonzero h1
            · exact hr d hd
          · simp only [List.length_cons]
            omega
          · simp only [List.length_cons]
            omega
        · rw [if_neg h3] at h
          simp at h
    · rw [if_neg h1] at h
      by_cases h4 : c.isDigit = true
      · rw [if_pos h4] at h
        by_cases h5 : 7 ≤ (rest.takeWhile Char.isDigit).length + 1
        · rw [if_pos h5] at h
          cases h
          refine ⟨?_, ?_, ?_⟩
          · intro d hd
            rcases List.mem_cons.mp hd with rfl | hd
            · exact h4
            · exact hr d (List.mem_of_mem_take hd)
          · simp only [List.length_cons, List.length_take]
            omega
          · simp only [List.length_cons, List.length_take]
            omega
        · rw [if_neg h5] at h
          simp at h
      · rw [if_neg h4] at h
        simp at h

theorem phoneMatchAt_shape {s m : Str} (h : phoneMatchAt s = some m) :
    ∃ d, (m = '+' :: d ∨ m = d) ∧ (∀ c ∈ d, c.isDigit = true) ∧
      7 ≤ d.length ∧ d.length ≤ 15 := by
  cases s with
  | nil => simp [phoneMatchAt, tryQuant] at h
  | cons c rest =>
    simp only [phoneMatchAt] at h
    split_ifs at h with h1
    · cases h2 : tryQuant rest with
      | some d =>
        rw [h2] at h
        cases h
        exact ⟨d, Or.inl rfl, (tryQuant_shape h2).1, (tryQuant_shape h2).2⟩
      | none =>
        rw [h2] at h
        exact ⟨m, Or.inr rfl, (tryQuant_shape h).1, (tryQuant_shape h).2⟩
    · exact ⟨m, Or.inr rfl, (tryQuant_shape h).1, (tryQuant_shape h).2⟩

theorem phoneSearch_shape {s m : Str} (h : phoneSearch s = some m) :
    ∃ d, (m = '+' :: d ∨ m = d) ∧ (∀ c ∈ d, c.isDigit = true) ∧
      7 ≤ d.length ∧ d.length ≤ 15 := by
  induction s with
  | nil => simp [phoneSearch] at h
  | cons c rest ih =>
    simp only [phoneSearch] at h
    cases h2 : phoneMatchAt (c :: rest) with
    | some d =>
      rw [h2] at h
      cases h
      exact phoneMatchAt_shape h2
    | none =>
      rw [h2] at h
      exact ih h

/-- C7 amended: phone extraction removes every `-` and space and then
returns the first match of `[\+]?[1-9]?[0-9]{7,14}` — an optional `+`, an
optional nonzero digit, then 7–14 digits — so every returned value is an
optional `+` followed by 7 to 15 digits (not at most 14: the optional
`[1-9]` adds a fifteenth); the spec's example still yields the contiguous
run `"5551234567"`. -/
theorem C7_extract_phone :
    (∀ t : Str, extract_phone t =
        if t = [] then none
        else phoneSearch (t.filter (fun c => !(c = '-' || c = ' '))))
    ∧ (∀ t m : Str, extract_phone t = some m →
        ∃ d, (m = '+' :: d ∨ m = d) ∧ (∀ c ∈ d, c.isDigit = true) ∧
          7 ≤ d.length ∧ d.length ≤ 15)
    ∧ extract_phone ("Call me at 555-123-4567".data) = some ("5551234567".data) := by
  refine ⟨fun t => rfl, ?_, by decide⟩
  intro t m h
  unfold extract_phone at h
  split_ifs at h with ht
  exact phoneSearch_shape h

/-- C7 counterexample: on a run of fifteen digits the extractor returns all
fifteen — a value with more than 14 digits after the (absent) `+`, refuting
the claim's "7–14 digits / at most 14 digits" reading of the pattern. -/
theorem C7_counterexample :
    extract_phone ("123456789012345".data) = some ("123456789012345".data)
    ∧ ("123456789012345".data).length = 15
    ∧ (∀ c ∈ ("123456789012345".data), c.isDigit = true)
    ∧ ¬ ("123456789012345".data).length ≤ 14 := by
  refine ⟨by decide, by decide, by decide, by decide⟩

/-- C7 witness: the shape theorem applied at the spec's example input. -/
theorem C7_witness :
    extract_phone ("Call me at 555-123-4567".data) = some ("5551234567".data) ∧
      ∃ d, (("5551234567".data) = '+' :: d ∨ ("5551234567".data) = d) ∧
        (∀ c ∈ d, c.isDigit = true) ∧ 7 ≤ d.length ∧ d.length ≤ 15 :=
  ⟨by decide,
    C7_extract_phone.2.1 ("Call me at 555-123-4567".data) ("5551234567".data) (by decide)⟩

/-! ## validators.py — sanitization (C9) -/

/-- The character class `[<>"';]` removed by `DataValidator.sanitize_input`. -/
def isHarmfulChar (c : Char) : Bool :=
  c = '<' || c = '>' || c = dquoteC || c = quoteC || c = ';'

/-- `DataValidator.sanitize_input` (validators.py lines 123–131): empty
input maps to the empty string; otherwise the harmful characters are
removed and the result is stripped. -/
def sanitize_input (text : Str) : Str :=
  if text = [] then []
  else pyStrip (text.filter (fun c => !isHarmfulChar c))

/-- A Python dict value: a string, or some other (opaque) object. -/
inductive PyVal where
  | str : Str → PyVal
  | obj : Nat → PyVal
deriving DecidableEq

/-- `CandidateDataManager.sanitize_candidate_data` (validators.py lines
207–217): a new dict in which every string value is sanitized and every
non-string value passes through (dicts are modelled as insertion-ordered
association lists). -/
def sanitize_candidate_data (candidate_info : List (Str × PyVal)) : List (Str × PyVal) :=
  candidate_info.map (fun kv =>
    match kv.2 with
    | PyVal.str s => (kv.1, PyVal.str (sanitize_input s))
    | v => (kv.1, v))

theorem dw_idem (p : Char → Bool) (l : Str) :
    List.dropWhile p (List.dropWhile p l) = List.dropWhile p l := by
  cases h : List.dropWhile p l with
  | nil => rfl
  | cons d ds =>
    rw [List.dropWhile_cons, if_neg]
    simp [dw_head_false h]

theorem rstrip_idem (l : Str) : rstrip (rstrip l) = rstrip l := by
  unfold rstrip
  rw [List.reverse_reverse, dw_idem]

theorem mem_pyStrip {c : Char} {l : Str} (h : c ∈ pyStrip l) : c ∈ l :=
  mem_lstrip (mem_rstrip h)

theorem rstrip_leading (l : Str) : rstrip l <+: l := by
  unfold rstrip
  have h : List.dropWhile isPySpace l.reverse <:+ l.reverse :=
    List.dropWhile_suffix isPySpace
  have h2 := List.reverse_prefix.mpr h
  rwa [List.reverse_reverse] at h2

theorem pyStrip_idem (l : Str) : pyStrip (pyStrip l) = pyStrip l := by
  unfold pyStrip
  have hmid : lstrip (rstrip (lstrip l)) = rstrip (lstrip l) := by
    cases hy : rstrip (lstrip l) with
    | nil => rfl
    | cons d ds =>
      have hpre : (d :: ds) <+: lstrip l := by
        rw [← hy]
        exact rstrip_leading _
      obtain ⟨t, ht⟩ := hpre
      have hdl : List.dropWhile isPySpace l = d :: (ds ++ t) := by
        show lstrip l = _
        rw [← ht]
        simp
      have hd : isPySpace d = false := dw_head_false hdl
      show List.dropWhile isPySpace (d :: ds) = d :: ds
      rw [List.dropWhile_cons, if_neg]
      simp [hd]
  rw [hmid, rstrip_idem]

theorem sanitize_input_idem (s : Str) :
    sanitize_input (sanitize_input s) = sanitize_input s := by
  unfold sanitize_input
  by_cases hs : s = []
  · simp [hs]
  · rw [if_neg hs]
    by_cases h2 : pyStrip (s.filter (fun c => !isHarmfulChar c)) = []
    · rw [if_pos h2, h2]
    · rw [if_neg h2]
      have hall : ∀ c ∈ pyStrip (s.filter (fun c => !isHarmfulChar c)),
          (!isHarmfulChar c) = true := by
        intro c hc
        exact (List.mem_filter.mp (mem_pyStrip hc)).2
      rw [List.filter_eq_self.mpr hall]
      exact pyStrip_idem _

/-- C9: sanitization is idempotent, both on single strings and on whole
candidate records (string values sanitized, others passed through). -/
theorem C9_sanitize_idempotent :
    (∀ s : Str, sanitize_input (sanitize_input s) = sanitize_input s)
    ∧ ∀ info : List (Str × PyVal),
        sanitize_candidate_data (sanitize_candidate_data info) =
          sanitize_candidate_data info := by
  refine ⟨sanitize_input_idem, ?_⟩
  intro info
  unfold sanitize_candidate_data
  rw [List.map_map]
  apply List.map_congr_left
  intro kv _
  obtain ⟨k, v⟩ := kv
  cases v <;> simp [sanitize_input_idem]

/-! ## validators.py — phone formatting (C8)

The `phonenumbers` library is external to the repository; it is modelled
abstractly: `parseNum` models `phonenumbers.parse` under the default
region, returning `none` where the library raises `NumberParseException`;
`isValidNum` models `is_valid_number`; `fmtIntl` models
`format_number(…, PhoneNumberFormat.INTERNATIONAL)`. -/

/-- `PhoneValidator.format_phone` (validators.py lines 69–81).  The
`Option Str` result models the Python return value, `none` being Python
`None` (returned on falsy input by `if not phone_str: return None`). -/
def format_phone {PN : Type} (parseNum : Str → Option PN) (isValidNum : PN → Bool)
    (fmtIntl : PN → Str) (phone_str : Str) : Option Str :=
  if phone_str = [] then none
  else
    match parseNum phone_str with
    | some pn => if isValidNum pn then some (fmtIntl pn) else some phone_str
    | none => some phone_str

/-- C8 counterexample: on the empty string `format_phone` returns the null
value `None`, not the input unchanged — the claim's "returns the input
unchanged (this includes empty/absent input)" fails at the empty string
(shown at a concrete library instantiation; the `if not phone_str` guard
fires before the library is ever consulted). -/
theorem C8_counterexample :
    format_phone (fun _ => (none : Option Unit)) (fun _ => false) (fun _ => [])
        [] = none
    ∧ (none : Option Str) ≠ some [] := by
  exact ⟨rfl, by simp⟩

/-- C8 amended: `format_phone` is total (never raises) for every library
behavior; on NONEMPTY input it returns the input unchanged when parsing
fails or the parsed number is invalid, and the international rendering when
the number is valid; empty/absent input yields the null value, not the
input string. -/
theorem C8_format_phone {PN : Type} (parseNum : Str → Option PN)
    (isValidNum : PN → Bool) (fmtIntl : PN → Str) (phone_str : Str) :
    (phone_str = [] → format_phone parseNum isValidNum fmtIntl phone_str = none)
    ∧ (phone_str ≠ [] → parseNum phone_str = none →
        format_phone parseNum isValidNum fmtIntl phone_str = some phone_str)
    ∧ (∀ pn, phone_str ≠ [] → parseNum phone_str = some pn → isValidNum pn = false →
        format_phone parseNum isValidNum fmtIntl phone_str = some phone_str)
    ∧ (∀ pn, phone_str ≠ [] → parseNum phone_str = some pn → isValidNum pn = true →
        format_phone parseNum isValidNum fmtIntl phone_str = some (fmtIntl pn)) := by
  refine ⟨?_, ?_, ?_, ?_⟩
  · intro h
    unfold format_phone
    rw [if_pos h]
  · intro h hp
    unfold format_phone
    rw [if_neg h, hp]
  · intro pn h hp hv
    unfold format_phone
    rw [if_neg h, hp]
    simp [hv]
  · intro pn h hp hv
    unfold format_phone
    rw [if_neg h, hp]
    simp [hv]

/-- C8 witness: the amended behavior at a concrete library instantiation —
an invalid parse of the malformed string `"12"` returns it unchanged. -/
theorem C8_witness :
    ("12".data ≠ ([] : Str)) ∧
      format_phone (fun _ => some ()) (fun _ => false) (fun _ => []) ("12".data)
        = some ("12".data) :=
  ⟨by decide,
    (C8_format_phone (fun _ => some ()) (fun _ => false) (fun _ => [])
      ("12".data)).2.2.1 () (by decide) rfl rfl⟩

/-! ## validators.py — export / persistence (C10) -/

/-- First-match lookup in an insertion-ordered dict. -/
def dictLookup (d : List (Str × PyVal)) (k : Str) : Option PyVal :=
  (List.find? (fun kv => decide (kv.1 = k)) d).map (fun kv => kv.2)

/-- Python dict assignment `d[k] = v`: update the value in place when the
key exists (keeping insertion order), else append the new binding. -/
def dictSet (d : List (Str × PyVal)) (k : Str) (v : PyVal) : List (Str × PyVal) :=
  if d.any (fun kv => decide (kv.1 = k)) then
    d.map (fun kv => if kv.1 = k then (k, v) else kv)
  else d ++ [(k, v)]

/-- `CandidateDataManager.export_to_dataframe` (validators.py lines
219–226): assigns the `timestamp` key into the caller's dict in place
(modelled by returning the updated dict as first component) and builds the
single dataframe row from that same dict (second component).  `now` models
`datetime.now().isoformat()`. -/
def export_to_dataframe (candidate_info : List (Str × PyVal)) (now : Str) :
    List (Str × PyVal) × List (Str × PyVal) :=
  let updated := dictSet candidate_info ("timestamp".data) (PyVal.str now)
  (updated, updated)

/-- `CandidateDataManager.save_to_csv` (validators.py lines 228–241):
export (mutating the caller's dict), then append the row to the existing
file's rows; `none` models `FileNotFoundError`, in which case a fresh file
holds the single row.  The returned filename is not modelled. -/
def save_to_csv (candidate_info : List (Str × PyVal)) (now : Str)
    (existingRows : Option (List (List (Str × PyVal)))) :
    List (Str × PyVal) × List (List (Str × PyVal)) :=
  let er := export_to_dataframe candidate_info now
  match existingRows with
  | some rows => (er.1, rows ++ [er.2])
  | none => (er.1, [er.2])

theorem find?_none_of_any_false {d : List (Str × PyVal)} {k : Str}
    (h : d.any (fun kv => decide (kv.1 = k)) = false) :
    List.find? (fun kv => decide (kv.1 = k)) d = none := by
  induction d with
  | nil => rfl
  | cons a tl ih =>
    simp only [List.any_cons, Bool.or_eq_false_iff] at h
    rw [List.find?_cons_of_neg _ (by simp [h.1] : ¬ _)]
    exact ih h.2

theorem dictLookup_set_self (d : List (Str × PyVal)) (k : Str) (v : PyVal) :
    dictLookup (dictSet d k v) k = some v := by
  unfold dictSet
  by_cases hany : d.any (fun kv => decide (kv.1 = k)) = true
  · rw [if_pos hany]
    induction d with
    | nil => simp at hany
    | cons a tl ih =>
      obtain ⟨a1, a2⟩ := a
      by_cases ha : a1 = k
      · subst ha
        unfold dictLookup
        simp only [List.map_cons, if_pos rfl]
        rw [List.find?_cons_of_pos _ (by simp)]
        rfl
      · simp only [List.any_cons, Bool.or_eq_true] at hany
        rcases hany with hc | hc
        · simp [ha] at hc
        · have := ih hc
          unfold dictLookup at this ⊢
          simp only [List.map_cons]
          rw [if_neg ha]
          rw [List.find?_cons_of_neg _ (by simp [ha] : ¬ _)]
          exact this
  · simp only [Bool.not_eq_true] at hany
    rw [if_neg (by simp [hany])]
    unfold dictLookup
    rw [List.find?_append, find?_none_of_any_false hany]
    rw [List.find?_cons_of_pos _ (by simp)]
    rfl

theorem find?_set_other {k k' : Str} {v : PyVal} (h : k' ≠ k)
    (tl : List (Str × PyVal)) :
    List.find? (fun kv => decide (kv.1 = k'))
        (tl.map (fun kv => if kv.1 = k then (k, v) else kv))
      = List.find? (fun kv => decide (kv.1 = k')) tl := by
  induction tl with
  | nil => rfl
  | cons a tl2 ih =>
    obtain ⟨a1, a2⟩ := a
    simp only [List.map_cons]
    by_cases ha : a1 = k
    · rw [if_pos ha]
      subst ha
      have hcne : ¬ (a1 = k') := fun hc => h hc.symm
      simp only [List.find?_cons]
      dsimp only
      rw [decide_eq_false hcne]
      exact ih
    · rw [if_neg ha]
      by_cases ha2 : a1 = k'
      · subst ha2
        simp only [List.find?_cons, decide_True]
      · simp only [List.find?_cons]
        dsimp only
        rw [decide_eq_false ha2]
        exact ih

theorem dictLookup_set_other (d : List (Str × PyVal)) (k k' : Str) (v : PyVal)
    (h : k' ≠ k) : dictLookup (dictSet d k v) k' = dictLookup d k' := by
  unfold dictSet
  by_cases hany : d.any (fun kv => decide (kv.1 = k)) = true
  · rw [if_pos hany]
    unfold dictLookup
    rw [find?_set_other h d]
  · simp only [Bool.not_eq_true] at hany
    rw [if_neg (by simp [hany])]
    unfold dictLookup
    rw [List.find?_append]
    have hone : List.find? (fun kv => decide (kv.1 = k')) [(k, v)] = none := by
      apply List.find?_eq_none.mpr
      intro x hx
      simp only [List.mem_singleton] at hx
      subst hx
      simp only [decide_eq_true_eq]
      exact fun hc => h hc.symm
    rw [hone]
    simp

/-- C10: `export_to_dataframe` adds `timestamp` directly to the caller's
record (shown on the post-call record state): it maps `timestamp` to the
export time, every other key keeps exactly its previous value, and
`save_to_csv` leaves the caller's record in the same mutated state. -/
theorem C10_export_mutates_record (info : List (Str × PyVal)) (now : Str)
    (rows : Option (List (List (Str × PyVal)))) :
    dictLookup (export_to_dataframe info now).1 ("timestamp".data)
        = some (PyVal.str now)
    ∧ (∀ k : Str, k ≠ "timestamp".data →
        dictLookup (export_to_dataframe info now).1 k = dictLookup info k)
    ∧ (save_to_csv info now rows).1 = (export_to_dataframe info now).1 := by
  refine ⟨dictLookup_set_self info _ _, ?_, ?_⟩
  · intro k hk
    exact dictLookup_set_other info _ k _ hk
  · unfold save_to_csv
    cases rows <;> rfl

/-- C10 witness: a one-key record gains `timestamp` and keeps its `name`
binding across the call. -/
theorem C10_witness :
    (("name".data : Str) ≠ "timestamp".data) ∧
      dictLookup (export_to_dataframe [("name".data, PyVal.str ("Ada".data))]
          ("2026-01-01T00:00:00".data)).1 ("name".data)
        = dictLookup [("name".data, PyVal.str ("Ada".data))] ("name".data) :=
  ⟨by decide,
    (C10_export_mutates_record [("name".data, PyVal.str ("Ada".data))]
      ("2026-01-01T00:00:00".data) none).2.1 ("name".data) (by decide)⟩

/-! ## chatbot.py / app.py — dialogue orchestration (C5, C6)

The Groq call is the only external effect; it is modelled as an oracle
`llm : List Msg → Except Str Str` mapping the outbound message list to
either the assistant text (`ok`) or the exception text (`error`).  The
Streamlit session state of app.py is modelled by `AppState`; the spec's
ACTIVE/ENDED states correspond to `conversation_ended = false / true`. -/

/-- A chat role. -/
inductive Role where
  | system : Role
  | user : Role
  | assistant : Role
deriving DecidableEq

/-- One message dict `{"role": …, "content": …}`. -/
abbrev Msg := Role × Str

/-- `TalentScoutChatbot.system_prompt` (chatbot.py lines 18–44). -/
def system_prompt : Str :=
  ("\n        You are a Hiring Assistant chatbot for TalentScout, a recruitment agency specializing in technology placements.\n\n        YOUR PURPOSE: Assist in initial screening of candidates by gathering essential information and posing relevant technical questions.\n\n        REQUIRED INFORMATION TO COLLECT (in order):\n        1. Full Name(First name and Last name)\n        2. Email Address  \n        3. Phone Number\n        4. Years of Experience\n        5. Desired Position(s)\n        6. Current Location\n        7. Tech Stack (programming languages, frameworks, databases, tools)\n\n        PROCESS:\n        1. Greet candidate and provide brief overview of your purpose\n        2. Gather ALL required information systematically\n        3. Once tech stack is declared, generate 3-5 technical questions tailored to their specified technologies\n        4. Maintain context throughout conversation\n        5. If user says goodbye/quit/exit keywords, gracefully conclude with next steps\n\n        CONSTRAINTS:\n        - Stay focused on hiring/recruitment purpose\n        - Do not deviate from the core functionality\n        - Keep responses professional and concise\n        - Handle unexpected inputs with meaningful fallback responses\n        ").data

/-- `TalentScoutChatbot.get_farewell_message` (chatbot.py lines 107–113). -/
def farewell_message : Str :=
  ("Thank you so much for your time today! 🙏 \n\nIt was wonderful getting to know you and learning about your experience. We").data
  ++ [quoteC] ++
  ("ll carefully review everything we discussed and be in touch within the next few days if your profile aligns with our current opportunities. \n\nBest of luck with your job search! 🎯").data

/-- The fixed prefix of the failure message of `get_response`
(chatbot.py line 153), up to the interpolated `str(e)`. -/
def apology_head : Str :=
  ("I apologize, but I").data ++ [quoteC] ++
  ("m experiencing technical difficulties. Please try again in a moment. Error: ").data

/-- The full failure message embedding the exception text. -/
def apology_message (e : Str) : Str := apology_head ++ e

/-- The chatbot-owned mutable state: conversation history and candidate
record (chatbot.py lines 46–47). -/
structure ChatState where
  conversation_history : List Msg
  candidate_info : CandidateInfo
deriving DecidableEq

/-- Python `l[-12:]`: the last `n` elements. -/
def lastN (n : Nat) (l : List Msg) : List Msg := l.drop (l.length - n)

/-- The outbound message list built by `get_response` (chatbot.py lines
122–130): system prompt, last 12 stored turns, current user input. -/
def buildMessages (st : ChatState) (user_input : Str) : List Msg :=
  (Role.system, system_prompt) ::
    (lastN 12 st.conversation_history ++ [(Role.user, user_input)])

/-- `TalentScoutChatbot.get_response` (chatbot.py lines 115–153): exit
check first (farewell, no remote call); otherwise the oracle is consulted;
on success both turns are appended and extraction runs; on failure the
apology embedding the exception text is returned and the state is left
untouched (the whole body sits in `try/except`; the only fallible
operation is the remote call). -/
def get_response (llm : List Msg → Except Str Str) (st : ChatState)
    (user_input : Str) : Str × ChatState :=
  if is_exit_keyword user_input = true then (farewell_message, st)
  else
    match llm (buildMessages st user_input) with
    | Except.ok assistant_response =>
      (assistant_response,
        { conversation_history := st.conversation_history ++
            [(Role.user, user_input), (Role.assistant, assistant_response)],
          candidate_info := extract_candidate_info st.candidate_info user_input })
    | Except.error e => (apology_message e, st)

/-- The app-layer session state (app.py): the displayed transcript, the
terminal flag, and the chatbot instance. -/
structure AppState where
  conversation_ended : Bool
  messages : List Msg
  chatbot : ChatState
deriving DecidableEq

/-- One user turn of the app loop (app.py lines 64–83): the prompt is
echoed to the transcript; on exit intent the farewell is shown and the
session transitions to the terminal ended state without consulting the
chatbot; otherwise `get_response` runs and its reply is shown. -/
def processTurn (llm : List Msg → Except Str Str) (app : AppState)
    (prompt : Str) : AppState :=
  let app1 := { app with messages := app.messages ++ [(Role.user, prompt)] }
  if is_exit_keyword prompt = true then
    { app1 with
        messages := app1.messages ++ [(Role.assistant, farewell_message)],
        conversation_ended := true }
  else
    let rb := get_response llm app1.chatbot prompt
    { app1 with
        messages := app1.messages ++ [(Role.assistant, rb.1)],
        chatbot := rb.2 }

/-- C5: when the input is not exit-classified and the remote call raises,
`get_response` returns the apology string — which contains both
"technical difficulties" and the exception text — and neither the history
nor the candidate record changes; at the app layer the session stays in
its previous (ACTIVE) state. -/
theorem C5_llm_failure (llm : List Msg → Except Str Str) (st : ChatState)
    (app : AppState) (input e : Str)
    (hexit : is_exit_keyword input = false)
    (herr : llm (buildMessages st input) = Except.error e)
    (happ : app.chatbot = st) :
    get_response llm st input = (apology_message e, st)
    ∧ ("technical difficulties".data) <:+: apology_message e
    ∧ e <:+: apology_message e
    ∧ (processTurn llm app input).conversation_ended = app.conversation_ended
    ∧ (processTurn llm app input).chatbot = st := by
  have h1 : get_response llm st input = (apology_message e, st) := by
    unfold get_response
    rw [hexit]
    simp [herr]
  refine ⟨h1, ?_, ?_, ?_, ?_⟩
  · have hsub : ("technical difficulties".data) <:+: apology_head := by decide
    exact hsub.trans ⟨[], e, rfl⟩
  · exact ⟨apology_head, [], by simp [apology_message]⟩
  · unfold processTurn
    rw [hexit]
    simp
  · unfold processTurn
    rw [hexit]
    simp [happ, h1]

/-- C5 witness: a simulated network error on the first non-exit turn. -/
theorem C5_witness :
    is_exit_keyword ("hello".data) = false ∧
      get_response (fun _ => Except.error ("boom".data))
          (ChatState.mk [] (CandidateInfo.mk none none none)) ("hello".data)
        = (apology_message ("boom".data),
            ChatState.mk [] (CandidateInfo.mk none none none)) :=
  ⟨by decide,
    (C5_llm_failure (fun _ => Except.error ("boom".data))
      (ChatState.mk [] (CandidateInfo.mk none none none))
      (AppState.mk false [] (ChatState.mk [] (CandidateInfo.mk none none none)))
      ("hello".data) ("boom".data) (by decide) rfl rfl).1⟩

/-- C6: on exit-classified input (including as the very first message)
`get_response` returns the fixed farewell and leaves history and record
untouched; the result is identical under every oracle (no remote call is
consumed); the app layer transitions to the terminal ENDED state without
touching the chatbot state, again identically under every oracle. -/
theorem C6_exit_turn (llm llm2 : List Msg → Except Str Str) (st : ChatState)
    (app : AppState) (input : Str) (hexit : is_exit_keyword input = true) :
    get_response llm st input = (farewell_message, st)
    ∧ get_response llm st input = get_response llm2 st input
    ∧ (processTurn llm app input).conversation_ended = true
    ∧ (processTurn llm app input).chatbot = app.chatbot
    ∧ processTurn llm app input = processTurn llm2 app input := by
  unfold get_response processTurn
  rw [hexit]
  simp

/-- C6 witness: "bye" as the very first message of a fresh session. -/
theorem C6_witness :
    is_exit_keyword ("bye".data) = true ∧
      get_response (fun _ => Except.error [])
          (ChatState.mk [] (CandidateInfo.mk none none none)) ("bye".data)
        = (farewell_message, ChatState.mk [] (CandidateInfo.mk none none none)) :=
  ⟨by decide,
    (C6_exit_turn (fun _ => Except.error []) (fun _ => Except.ok [])
      (ChatState.mk [] (CandidateInfo.mk none none none))
      (AppState.mk false [] (ChatState.mk [] (CandidateInfo.mk none none none)))
      ("bye".data) (by decide)).1⟩
